import Mathlib

/-!
Verification of the accounting spreadsheet pipeline (router.js / processor.js).

JavaScript strings are modelled as `List Char`; JS numbers as `ℚ` (the
program performs no float-rounding-sensitive arithmetic in the verified
claims); spreadsheet cell values as the sum type `JsVal` (number, string,
or absent).  Fresh UUIDs (`crypto.randomUUID()`) are external randomness
and are not part of the record model; `Date.parse` (generic calendar
parsing, an implementation-defined JS builtin) is threaded through as an
explicit parameter; the local timezone is modelled as UTC.
-/

/-- A JS string as a list of characters. -/
abbrev Str := List Char

/-- The whitespace class `\s` restricted to the characters this data can
contain (space, tab, LF, CR, VT, FF). -/
def isWsChar (c : Char) : Bool :=
  c == ' ' || c == '\t' || c == '\n' || c == '\r' ||
  c == Char.ofNat 11 || c == Char.ofNat 12

/-- Models `str.replace(/\s+/g, '')`: remove all whitespace. -/
def stripWs (s : Str) : Str := s.filter (fun c => !isWsChar c)

/-- Models `String.prototype.trim()`. -/
def trimStr (s : Str) : Str :=
  ((s.dropWhile isWsChar).reverse.dropWhile isWsChar).reverse

/-- ASCII lower-casing; models `toLowerCase` on the characters appearing in
this data (Korean syllables have no case and are unaffected). -/
def lowc (c : Char) : Char :=
  if 'A' ≤ c && c ≤ 'Z' then Char.ofNat (c.toNat + 32) else c

/-- Models `String.prototype.toLowerCase()`. -/
def toLowerStr (s : Str) : Str := s.map lowc

/-- `needle` is a prefix of `hay`. -/
def isPrefixB : Str → Str → Bool
  | [], _ => true
  | _ :: _, [] => false
  | a :: as, b :: bs => a == b && isPrefixB as bs

/-- Models `hay.includes(needle)` (substring containment). -/
def isSubstr (needle hay : Str) : Bool :=
  match hay with
  | [] => needle.isEmpty
  | _ :: t => isPrefixB needle hay || isSubstr needle t

/-- ASCII decimal digit test. -/
def isDigitB (c : Char) : Bool := '0' ≤ c && c ≤ '9'

/-- Numeric value of an ASCII digit. -/
def digitVal (c : Char) : Nat := c.toNat - '0'.toNat

/-- Decimal digits, fuel-based so that it reduces inside the kernel
(`fuel ≥ number of digits` always holds for the wrapper below). -/
def natDigitsAux : Nat → Nat → Str
  | 0, _ => []
  | fuel + 1, n =>
    if n < 10 then [Nat.digitChar n]
    else natDigitsAux fuel (n / 10) ++ [Nat.digitChar (n % 10)]

/-- Decimal digits of a natural number, most significant first. -/
def natDigits (n : Nat) : Str := natDigitsAux (n + 1) n

/-- Decimal rendering of an integer (models `String(n)` for integer `n`). -/
def renderInt (i : Int) : Str :=
  if i < 0 then '-' :: natDigits (-i).toNat else natDigits i.toNat

/-- Value of a list of decimal digits. -/
def digitsToNat (ds : Str) : Nat := ds.foldl (fun a c => a * 10 + digitVal c) 0

/-- Leading optional sign of a float literal, and the rest of the string. -/
def parseSign (s : Str) : Bool × Str :=
  match s with
  | c :: t =>
    if c == '-' then (true, t) else if c == '+' then (false, t) else (false, c :: t)
  | [] => (false, [])

/-- Fraction digits after a leading decimal point, if any. -/
def fracPart (r : Str) : Str :=
  match r with
  | c :: t => if c == '.' then t.takeWhile isDigitB else []
  | [] => []

/-- Computational core of `parseFloat` on the strings this program feeds it
(after its cleaning steps these contain only digits, `.`, `-` and `+`; no
exponent part can occur): the sign, integer-part value, fraction-part value
and fraction length of the longest leading float literal, or `none` for
`NaN`. -/
def parseFloatParts (s : Str) : Option (Bool × Nat × Nat × Nat) :=
  let sr := parseSign s
  let ip := sr.2.takeWhile isDigitB
  let fp := fracPart (sr.2.dropWhile isDigitB)
  if ip.isEmpty && fp.isEmpty then none
  else some (sr.1, digitsToNat ip, digitsToNat fp, fp.length)

/-- Models `parseFloat`; `none` models `NaN`. -/
def parseFloatQ (s : Str) : Option ℚ :=
  (parseFloatParts s).map fun p =>
    if p.1 then -((p.2.1 : ℚ) + (p.2.2.1 : ℚ) / (10 : ℚ) ^ p.2.2.2)
    else (p.2.1 : ℚ) + (p.2.2.1 : ℚ) / (10 : ℚ) ^ p.2.2.2

/-- A spreadsheet cell / JS value as the pipeline sees it. -/
inductive JsVal where
  | num (q : ℚ)
  | str (s : Str)
  | absent
deriving DecidableEq

/-- JS truthiness of a value (`0`, `''`, `undefined` are falsy). -/
def JsVal.truthy : JsVal → Bool
  | .num q => q != 0
  | .str s => !s.isEmpty
  | .absent => false

/-- JS `String(number)`.  Exact for integers — the only numbers the
pipeline ever stringifies in the verified claims; non-integral rationals
receive a definite schematic rendering (numerator/denominator), on which
no claim depends (both sides of every theorem use the same function). -/
def renderRat (q : ℚ) : Str :=
  if q.den == 1 then renderInt q.num
  else renderInt q.num ++ '/' :: natDigits q.den

/-- JS `String(v)` coercion. -/
def jsToString : JsVal → Str
  | .num q => renderRat q
  | .str s => s
  | .absent => "undefined".toList

/-- The fullwidth won sign `￦` (U+FFE6) used by the source's regex. -/
def wonChar : Char := Char.ofNat 0xFFE6

/-- First match of `/￦\s*([\d,]+)/`: the captured digits-and-commas run
after the first `￦` that is followed (over whitespace) by at least one
digit or comma. -/
def wonScan : Str → Option Str
  | [] => none
  | c :: cs =>
    if c == wonChar then
      let run := (cs.dropWhile isWsChar).takeWhile (fun d => isDigitB d || d == ',')
      if run.isEmpty then wonScan cs else some run
    else wonScan cs

/-- Does the string start with a `<br>` / `<br/>` tag (case-insensitive,
optional inner whitespace), i.e. a match of `/<br\s*\/?>/i` here? -/
def isBrTag : Str → Bool
  | '<' :: c1 :: c2 :: rest =>
    if lowc c1 == 'b' && lowc c2 == 'r' then
      match rest.dropWhile isWsChar with
      | '>' :: _ => true
      | '/' :: '>' :: _ => true
      | _ => false
    else false
  | _ => false

/-- Models `str.split(/<br\s*\/?>/i)[0]`: the text before the first
line-break tag (the whole string when there is none). -/
def beforeBr : Str → Str
  | [] => []
  | c :: cs => if isBrTag (c :: cs) then [] else c :: beforeBr cs

/-- The character class kept by `replace(/[^0-9.-]/g, '')`. -/
def keepNumChar (c : Char) : Bool := isDigitB c || c == '.' || c == '-'

/-- `Processor.extractKRW`: extract the KRW amount from a raw cell value.
A number passes through; a falsy value is 0; otherwise prefer a `￦`-prefixed
digit run, else parse the digits of the text before any `<br>` tag. -/
def extractKRW (v : JsVal) : ℚ :=
  match v with
  | .num q => q
  | .absent => 0
  | .str s =>
    if s.isEmpty then 0
    else
      match wonScan s with
      | some run => (parseFloatQ (run.filter (fun c => c != ','))).getD 0
      | none => (parseFloatQ ((beforeBr s).filter keepNumChar)).getD 0

lemma takeWhile_digits_nil {l : Str} (h : ∀ c ∈ l, isDigitB c = false) :
    l.takeWhile isDigitB = [] := by
  cases l with
  | nil => rfl
  | cons c t => simp [List.takeWhile_cons, h c (by simp)]

lemma parseSign_snd_subset (s : Str) : (parseSign s).2 ⊆ s := by
  cases s with
  | nil => simp [parseSign]
  | cons c t =>
    cases h1 : (c == '-') with
    | true => simp [parseSign, h1, List.subset_cons_of_subset]
    | false =>
      cases h2 : (c == '+') with
      | true => simp [parseSign, h1, h2, List.subset_cons_of_subset]
      | false => simp [parseSign, h1, h2]

lemma fracPart_nil_of_no_digit {r : Str} (h : ∀ c ∈ r, isDigitB c = false) :
    fracPart r = [] := by
  cases r with
  | nil => rfl
  | cons a u =>
    cases ha : (a == '.') with
    | false => simp [fracPart, ha]
    | true =>
      simp only [fracPart, ha, if_true]
      exact takeWhile_digits_nil (fun c hc => h c (List.mem_cons_of_mem _ hc))

lemma parseFloatParts_none_of_no_digit {s : Str} (h : ∀ c ∈ s, isDigitB c = false) :
    parseFloatParts s = none := by
  have hsub : ∀ c ∈ (parseSign s).2, isDigitB c = false :=
    fun c hc => h c (parseSign_snd_subset s hc)
  have hip : (parseSign s).2.takeWhile isDigitB = [] := takeWhile_digits_nil hsub
  have hfp : fracPart ((parseSign s).2.dropWhile isDigitB) = [] :=
    fracPart_nil_of_no_digit
      (fun c hc => hsub c ((List.dropWhile_sublist _).subset hc))
  simp [parseFloatParts, hip, hfp]

lemma wonScan_mem {s run : Str} (hw : wonScan s = some run) :
    ∀ c ∈ run, c ∈ s ∧ (isDigitB c || c == ',') = true := by
  induction s with
  | nil => simp [wonScan] at hw
  | cons a t ih =>
    by_cases ha : (a == wonChar) = true
    · by_cases he :
        ((t.dropWhile isWsChar).takeWhile (fun d => isDigitB d || d == ',')).isEmpty = true
      · have hw' : wonScan t = some run := by
          rw [wonScan, if_pos ha] at hw
          simpa [he] using hw
        intro c hc
        obtain ⟨hm, hp⟩ := ih hw' c hc
        exact ⟨List.mem_cons_of_mem _ hm, hp⟩
      · have hrun : run = (t.dropWhile isWsChar).takeWhile (fun d => isDigitB d || d == ',') := by
          rw [wonScan, if_pos ha] at hw
          simp only [he] at hw
          simp [Bool.not_eq_true] at he
          simpa [he] using hw.symm
        intro c hc
        rw [hrun] at hc
        have hp := List.mem_takeWhile_imp hc
        have h1 : c ∈ t.dropWhile isWsChar := (List.takeWhile_sublist _).subset hc
        exact ⟨List.mem_cons_of_mem _ ((List.dropWhile_sublist _).subset h1), by simpa using hp⟩
    · have hw' : wonScan t = some run := by
        rw [wonScan, if_neg ha] at hw
        exact hw
      intro c hc
      obtain ⟨hm, hp⟩ := ih hw' c hc
      exact ⟨List.mem_cons_of_mem _ hm, hp⟩

lemma beforeBr_subset : ∀ s : Str, beforeBr s ⊆ s := by
  intro s
  induction s with
  | nil => simp [beforeBr]
  | cons c t ih =>
    rw [beforeBr]
    by_cases h : isBrTag (c :: t) = true
    · simp [h]
    · simp only [h, if_neg, Bool.false_eq_true, not_false_eq_true, if_false]
      intro x hx
      rcases List.mem_cons.mp hx with h1 | h1
      · simp [h1]
      · exact List.mem_cons_of_mem _ (ih h1)

/-- C6: the currency extractor `extractKRW` is idempotent — for every input
value, re-running it on its own (numeric) output returns the same number —
and `extractKRW "₩36,411<br/>[USD]25.72" = 36411`, `extractKRW 1500 = 1500`,
`extractKRW "" = 0`; a value yielding no parseable digits normalizes to 0. -/
theorem c6_extractKRW :
    (∀ v : JsVal, extractKRW (JsVal.num (extractKRW v)) = extractKRW v)
    ∧ extractKRW (JsVal.str "₩36,411<br/>[USD]25.72".toList) = 36411
    ∧ extractKRW (JsVal.num 1500) = 1500
    ∧ extractKRW (JsVal.str "".toList) = 0
    ∧ (∀ s : Str, (∀ c ∈ s, isDigitB c = false) → extractKRW (JsVal.str s) = 0) := by
  refine ⟨fun v => rfl, ?_, rfl, rfl, ?_⟩
  · have h1 : wonScan ['₩', '3', '6', ',', '4', '1', '1', '<', 'b', 'r', '/', '>',
        '[', 'U', 'S', 'D', ']', '2', '5', '.', '7', '2'] = none := by decide
    have h2 : (beforeBr ['₩', '3', '6', ',', '4', '1', '1', '<', 'b', 'r', '/', '>',
        '[', 'U', 'S', 'D', ']', '2', '5', '.', '7', '2']).filter keepNumChar
        = ['3', '6', '4', '1', '1'] := by decide
    have h3 : parseFloatParts ['3', '6', '4', '1', '1'] = some (false, 36411, 0, 0) := by
      decide
    simp [extractKRW, h1, h2, parseFloatQ, h3]
  · intro s hs
    by_cases hempty : s.isEmpty
    · simp [extractKRW, hempty]
    · cases hw : wonScan s with
      | none =>
        have hn : parseFloatParts ((beforeBr s).filter keepNumChar) = none := by
          apply parseFloatParts_none_of_no_digit
          intro c hc
          exact hs c (beforeBr_subset s (List.mem_of_mem_filter hc))
        simp [extractKRW, hempty, hw, parseFloatQ, hn]
      | some run =>
        have hrun : run.filter (fun c => c != ',') = [] := by
          rw [List.filter_eq_nil_iff]
          intro c hc
          obtain ⟨hmem, hp⟩ := wonScan_mem hw c hc
          have hd := hs c hmem
          simp [hd] at hp
          simp [hp]
        simp [extractKRW, hempty, hw, hrun, parseFloatQ]
        decide

/-- Civil date `(y, m, d)` from days since the Unix epoch (standard
Gregorian days-to-civil conversion).  The program reads the resulting
`Date` back with local calendar fields; the local timezone is modelled
as UTC. -/
def civilFromDays (z0 : Int) : Int × Int × Int :=
  let z := z0 + 719468
  let era := Int.fdiv z 146097
  let doe := z - era * 146097
  let yoe := Int.fdiv (doe - Int.fdiv doe 1460 + Int.fdiv doe 36524 - Int.fdiv doe 146096) 365
  let y := yoe + era * 400
  let doy := doe - (365 * yoe + Int.fdiv yoe 4 - Int.fdiv yoe 100)
  let mp := Int.fdiv (5 * doy + 2) 153
  let d := doy - Int.fdiv (153 * mp + 2) 5 + 1
  let m := mp + (if mp < 10 then 3 else -9)
  (y + (if m ≤ 2 then 1 else 0), m, d)

/-- `String(n).padStart(2, '0')`. -/
def pad2 (s : Str) : Str :=
  if s.length < 2 then List.replicate (2 - s.length) '0' ++ s else s

/-- The `${year}-${month}-${day}` assembly shared by `formatDate`. -/
def fmtYMD (y m d : Int) : Str :=
  renderInt y ++ '-' :: pad2 (renderInt m) ++ '-' :: pad2 (renderInt d)

/-- The `d instanceof Date` branch of `Processor.formatDate`: the object's
(local = UTC) calendar fields, zero-padded. -/
def formatDateObj (y m d : Int) : Str := fmtYMD y m d

/-- `Math.round` (half rounds toward positive infinity). -/
def jsRound (q : ℚ) : Int := ⌊q + 1 / 2⌋

/-- The numeric (Excel serial) branch of `Processor.formatDate`:
`new Date(Math.round((d - 25569) * 86400 * 1000))`, read back as a
(local = UTC) calendar date. -/
def formatDateSerial (q : ℚ) : Str :=
  let ms := jsRound ((q - 25569) * 86400 * 1000)
  let ymd := civilFromDays (Int.fdiv ms 86400000)
  fmtYMD ymd.1 ymd.2.1 ymd.2.2

/-- `str.split(/[\sT]+/)[0]`: the text before the first whitespace or `T`. -/
def dropTimePart (s : Str) : Str := s.takeWhile (fun c => !(isWsChar c || c == 'T'))

/-- `str.replace(/[\.\/]/g, '-')`. -/
def normSep (s : Str) : Str := s.map (fun c => if c == '.' || c == '/' then '-' else c)

/-- The cleaning steps of the string branch: trim, strip the time
component, normalize separators. -/
def cleanDateStr (s : Str) : Str := normSep (dropTimePart (trimStr s))

/-- `/^\d{8}$/`. -/
def is8Digits (s : Str) : Bool := s.length == 8 && s.all isDigitB

/-- `/^\d{4}-\d{2}-\d{2}$/`. -/
def isYMDShape (s : Str) : Bool :=
  match s with
  | [a, b, c, d, e, f, g, h, i, j] =>
    isDigitB a && isDigitB b && isDigitB c && isDigitB d && e == '-' &&
    isDigitB f && isDigitB g && h == '-' && isDigitB i && isDigitB j
  | _ => false

/-- The string branch of `Processor.formatDate`.  `dateParse` models the JS
`Date.parse` builtin (generic, implementation-defined calendar parsing),
giving epoch milliseconds or `none` for `NaN`. -/
def formatDateStr (dateParse : Str → Option Int) (s0 : Str) : Str :=
  let str := cleanDateStr s0
  if is8Digits str then
    str.take 4 ++ '-' :: ((str.drop 4).take 2) ++ '-' :: ((str.drop 6).take 2)
  else if isYMDShape str then str
  else
    match dateParse str with
    | some ms =>
      let ymd := civilFromDays (Int.fdiv ms 86400000)
      fmtYMD ymd.1 ymd.2.1 ymd.2.2
    | none => str

/-- `Processor.formatDate` on a spreadsheet cell value (falsy values give
`''`; a number is an Excel serial; a string is parsed; `Date` objects never
occur in cells — they are handled by `formatDateObj`). -/
def formatDateVal (dateParse : Str → Option Int) (v : JsVal) : Str :=
  if !v.truthy then []
  else
    match v with
    | .num q => formatDateSerial q
    | .str s => formatDateStr dateParse s
    | .absent => []

/-- C7: the date normalizer maps `"20250115"`, `"2025-01-15"` and
`"2025.01.15 13:20"` to `"2025-01-15"`; Excel serial `45672` maps, via the
documented epoch offset (subtract 25569 days, scale by 86400 seconds), to
`2025-01-15`; and every string input on which all parsing strategies fail
is returned cleaned but otherwise unchanged — the function never throws. -/
theorem c7_formatDate :
    (∀ dp, formatDateStr dp "20250115".toList = "2025-01-15".toList)
    ∧ (∀ dp, formatDateStr dp "2025-01-15".toList = "2025-01-15".toList)
    ∧ (∀ dp, formatDateStr dp "2025.01.15 13:20".toList = "2025-01-15".toList)
    ∧ (∀ dp, formatDateVal dp (JsVal.num 45672) = "2025-01-15".toList)
    ∧ (∀ dp s, is8Digits (cleanDateStr s) = false → isYMDShape (cleanDateStr s) = false →
        dp (cleanDateStr s) = none → formatDateStr dp s = cleanDateStr s) := by
  refine ⟨?_, ?_, ?_, ?_, ?_⟩
  · intro dp
    have hc : is8Digits (cleanDateStr "20250115".toList) = true := by decide
    simp only [formatDateStr, hc, if_true]
    decide
  · intro dp
    have hc : is8Digits (cleanDateStr "2025-01-15".toList) = false := by decide
    have hy : isYMDShape (cleanDateStr "2025-01-15".toList) = true := by decide
    simp only [formatDateStr, hc, hy, Bool.false_eq_true, if_false, if_true]
    decide
  · intro dp
    have hc : is8Digits (cleanDateStr "2025.01.15 13:20".toList) = false := by decide
    have hy : isYMDShape (cleanDateStr "2025.01.15 13:20".toList) = true := by decide
    simp only [formatDateStr, hc, hy, Bool.false_eq_true, if_false, if_true]
    decide
  · intro dp
    have ht : JsVal.truthy (JsVal.num 45672) = true := by
      simp [JsVal.truthy]
    have hms : jsRound ((45672 - 25569) * 86400 * 1000 : ℚ) = 1736899200000 := by
      have he : ((45672 : ℚ) - 25569) * 86400 * 1000 = ((1736899200000 : Int) : ℚ) := by
        norm_num
      rw [jsRound, he]
      rw [Int.floor_eq_iff]
      constructor
      · push_cast
        norm_num
      · push_cast
        norm_num
    have hdays : Int.fdiv 1736899200000 86400000 = 20103 := by decide
    have hcivil : civilFromDays 20103 = (2025, 1, 15) := by decide
    simp only [formatDateVal, ht, Bool.not_true, Bool.false_eq_true, if_false]
    simp only [formatDateSerial]
    rw [hms, hdays, hcivil]
    decide
  · intro dp s h8 hy hdp
    simp [formatDateStr, h8, hy, hdp]

/-- A source definition from `SOURCE_DEFINITIONS` in router.js, including
the mapping keys used by the normalizers (`net_payment`, `total_deduction`
and `employee_name` are the keys `Processor.normalizeSalarySummary` reads;
the router's catalog does not set them). -/
structure SourceDef where
  type : Str
  name : Str
  signatures : List Str
  date : Option Str
  time : Option Str
  raw_description : Option Str
  amount : Option Str
  amount_alt : Option Str
  net_payment : Option Str
  total_deduction : Option Str
  employee_name : Option Str
deriving DecidableEq

/-- The `SOURCE_DEFINITIONS` catalog of router.js, in declared order. -/
def SOURCE_DEFINITIONS : List SourceDef := [
  { type := "kb_card".toList, name := "KB국민카드".toList,
    signatures := ["이용일".toList, "이용하신곳".toList, "이용금액".toList],
    date := some "이용일".toList, time := some "이용시간".toList,
    raw_description := some "이용하신곳".toList,
    amount := some "이용금액(원)".toList, amount_alt := some "이용금액".toList,
    net_payment := none, total_deduction := none, employee_name := none },
  { type := "bc_card".toList, name := "비씨카드".toList,
    signatures := ["승인일시".toList, "가맹점명".toList, "승인금액".toList],
    date := some "승인일시".toList, time := none,
    raw_description := some "가맹점명".toList,
    amount := some "승인금액".toList, amount_alt := some "거래금액".toList,
    net_payment := none, total_deduction := none, employee_name := none },
  { type := "shinhan_card".toList, name := "신한카드".toList,
    signatures := ["거래일".toList, "가맹점명".toList, "금액".toList],
    date := some "거래일".toList, time := none,
    raw_description := some "가맹점명".toList,
    amount := some "금액".toList, amount_alt := none,
    net_payment := none, total_deduction := none, employee_name := none },
  { type := "samsung_card".toList, name := "삼성카드".toList,
    signatures := ["카드번호".toList, "승인일자".toList, "승인시각".toList, "승인금액(원)".toList],
    date := some "승인일자".toList, time := some "승인시각".toList,
    raw_description := some "가맹점명".toList,
    amount := some "승인금액(원)".toList, amount_alt := none,
    net_payment := none, total_deduction := none, employee_name := none },
  { type := "citi_account".toList, name := "씨티계좌".toList,
    signatures := ["거래일시".toList, "적요".toList, "찾으신금액".toList, "맡기신금액".toList],
    date := some "거래일시".toList, time := some "거래시간".toList,
    raw_description := some "적요".toList,
    amount := some "찾으신금액".toList, amount_alt := some "맡기신금액".toList,
    net_payment := none, total_deduction := none, employee_name := none },
  { type := "citi_card".toList, name := "씨티카드".toList,
    signatures := ["이용일시".toList, "이용카드".toList, "가맹점명".toList, "거래금액".toList],
    date := some "이용일시".toList, time := none,
    raw_description := some "가맹점명".toList,
    amount := some "거래금액".toList, amount_alt := none,
    net_payment := none, total_deduction := none, employee_name := none }]

/-- The success payload of `Router.identifySource`. -/
structure IdSuccess where
  sdef : SourceDef
  headerRow : List Str
  headerIndex : Nat
  sheetName : Str
  jsonData : List (List JsVal)
deriving DecidableEq

/-- Result of `Router.identifySource`: a matched definition with its header
row, or the diagnostic probe string (`debugHeader`). -/
inductive IdResult where
  | success (s : IdSuccess)
  | failure (debugHeader : Str)
deriving DecidableEq

/-- A workbook: sheets in declared order, each a name and a grid of rows. -/
structure Workbook where
  sheets : List (Str × List (List JsVal))
deriving DecidableEq

/-- `row.map(c => c ? String(c).trim() : '')`. -/
def rowTrim (row : List JsVal) : List Str :=
  row.map (fun c => if c.truthy then trimStr (jsToString c) else [])

/-- `row.map(r => r.replace(/\s+/g, ''))`: the clean row used for matching. -/
def cleanRowOf (row : List JsVal) : List Str := (rowTrim row).map stripWs

/-- `signatures.every(sig => cleanRow.some(cell => cell.includes(cleanSig)))`. -/
def sigsMatchRow (d : SourceDef) (row : List JsVal) : Bool :=
  d.signatures.all (fun sig => (cleanRowOf row).any (fun cell => isSubstr (stripWs sig) cell))

/-- The inner definition loop of `identifySource`: return the first
matching definition; a matching row with fewer physical columns than
signature keywords is skipped (`continue`) for that definition. -/
def findDefInRow (row : List JsVal) : List SourceDef → Option SourceDef
  | [] => none
  | d :: ds =>
    if sigsMatchRow d row then
      if row.length < d.signatures.length then findDefInRow row ds
      else some d
    else findDefInRow row ds

/-- `MAX_SEARCH_ROWS` from router.js. -/
def MAX_SEARCH_ROWS : Nat := 500

/-- The row loop of `identifySource` over one sheet (the caller passes the
rows already limited to the first `MAX_SEARCH_ROWS`), tracking row index. -/
def scanRows (defs : List SourceDef) : Nat → List (List JsVal) → Option (SourceDef × List Str × Nat)
  | _, [] => none
  | i, row :: rest =>
    match findDefInRow row defs with
    | some d => some (d, rowTrim row, i)
    | none => scanRows defs (i + 1) rest

/-- The sheet loop of `identifySource`. -/
def scanSheets : List (Str × List (List JsVal)) → Option IdSuccess
  | [] => none
  | (nm, rows) :: rest =>
    match scanRows SOURCE_DEFINITIONS 0 (rows.take MAX_SEARCH_ROWS) with
    | some (d, hr, i) =>
      some { sdef := d, headerRow := hr, headerIndex := i, sheetName := nm, jsonData := rows }
    | none => scanSheets rest

/-- One cell as rendered by `Array.prototype.join` (null/undefined render
as the empty string there). -/
def joinCell (v : JsVal) : Str :=
  match v with
  | .absent => []
  | _ => jsToString v

/-- `list.join(',')`. -/
def joinComma : List Str → Str
  | [] => []
  | [s] => s
  | s :: rest => s ++ ',' :: joinComma rest

/-- The failure probe of `identifySource`: the first ten columns of the
first sheet's first row joined with commas, or the literal `'EMPTY'`
marker when that row is absent. -/
def probeString (wb : Workbook) : Str :=
  match wb.sheets.head? with
  | none => "EMPTY".toList
  | some sheet =>
    match sheet.2.head? with
    | none => "EMPTY".toList
    | some row => joinComma ((row.take 10).map joinCell)

/-- `Router.identifySource`. -/
def identifySource (wb : Workbook) : IdResult :=
  match scanSheets wb.sheets with
  | some s => IdResult.success s
  | none => IdResult.failure (probeString wb)

/-- The matched payload of an identification result, if any. -/
def IdResult.toOption : IdResult → Option IdSuccess
  | .success s => some s
  | .failure _ => none

/-- C1 claim side: a row matches a definition exactly when every signature
keyword, stripped of all whitespace, is a substring of some
whitespace-stripped, trimmed cell of the row, and the row has at least as
many physical columns as the definition has signature keywords. -/
def claimRowMatch (d : SourceDef) (row : List JsVal) : Bool :=
  d.signatures.all
    (fun sig => row.any (fun c =>
      isSubstr (stripWs sig) (stripWs (if c.truthy then trimStr (jsToString c) else [])))) &&
  decide (d.signatures.length ≤ row.length)

/-- C1 claim side: every matching (definition, header row) pair of a
workbook, in scan order — sheets in declared order, rows top-to-bottom
within the first `MAX_SEARCH_ROWS` of each sheet, and definitions in
catalog order within a row. -/
def scanCandidates (wb : Workbook) : List IdSuccess :=
  wb.sheets.flatMap (fun sheet =>
    ((sheet.2.take MAX_SEARCH_ROWS).enum).flatMap (fun p =>
      (SOURCE_DEFINITIONS.filter (fun d => claimRowMatch d p.2)).map (fun d =>
        { sdef := d, headerRow := rowTrim p.2, headerIndex := p.1,
          sheetName := sheet.1, jsonData := sheet.2 })))

lemma any_map_general {α β : Type} (f : α → β) (l : List α) (p : β → Bool) :
    (l.map f).any p = l.any (fun a => p (f a)) := by
  induction l with
  | nil => rfl
  | cons a t ih => simp [List.any_cons, ih]

lemma sigsMatchRow_eq_claim (d : SourceDef) (row : List JsVal) :
    sigsMatchRow d row =
      d.signatures.all (fun sig => row.any (fun c =>
        isSubstr (stripWs sig) (stripWs (if c.truthy then trimStr (jsToString c) else [])))) := by
  simp only [sigsMatchRow, cleanRowOf, rowTrim, any_map_general]

lemma findDefInRow_eq (row : List JsVal) (defs : List SourceDef) :
    findDefInRow row defs = (defs.filter (fun d => claimRowMatch d row)).head? := by
  induction defs with
  | nil => rfl
  | cons d ds ih =>
    rw [findDefInRow, List.filter_cons]
    by_cases hm : sigsMatchRow d row = true
    · by_cases hl : row.length < d.signatures.length
      · have hc : claimRowMatch d row = false := by
          unfold claimRowMatch
          rw [← sigsMatchRow_eq_claim]
          simp [hm, show ¬ (d.signatures.length ≤ row.length) from by omega]
        rw [if_pos hm, if_pos hl, hc, ih]
        simp
      · have hc : claimRowMatch d row = true := by
          unfold claimRowMatch
          rw [← sigsMatchRow_eq_claim]
          simp [hm, show d.signatures.length ≤ row.length from by omega]
        rw [if_pos hm, if_neg hl, hc]
        simp
    · have hm' : sigsMatchRow d row = false := by
        cases h : sigsMatchRow d row
        · rfl
        · exact absurd h hm
      have hc : claimRowMatch d row = false := by
        unfold claimRowMatch
        rw [← sigsMatchRow_eq_claim]
        simp [hm']
      rw [if_neg hm, hc, ih]
      simp

/-- Candidates contributed by one (index, row) pair, as raw tuples. -/
def rowCands (defs : List SourceDef) (p : Nat × List JsVal) : List (SourceDef × List Str × Nat) :=
  (defs.filter (fun d => claimRowMatch d p.2)).map (fun d => (d, rowTrim p.2, p.1))

lemma scanRows_eq (defs : List SourceDef) (i : Nat) (rows : List (List JsVal)) :
    scanRows defs i rows = ((rows.enumFrom i).flatMap (rowCands defs)).head? := by
  induction rows generalizing i with
  | nil => rfl
  | cons row rest ih =>
    rw [scanRows, List.enumFrom_cons, List.flatMap_cons, List.head?_append]
    simp only [rowCands, List.head?_map]
    rw [← findDefInRow_eq]
    cases h : findDefInRow row defs with
    | some d => simp [h]
    | none => simp [h, ih]

/-- Candidates contributed by one sheet. -/
def sheetCands (sheet : Str × List (List JsVal)) : List IdSuccess :=
  ((sheet.2.take MAX_SEARCH_ROWS).enum).flatMap (fun p =>
    (SOURCE_DEFINITIONS.filter (fun d => claimRowMatch d p.2)).map (fun d =>
      { sdef := d, headerRow := rowTrim p.2, headerIndex := p.1,
        sheetName := sheet.1, jsonData := sheet.2 }))

lemma sheetCands_eq (sheet : Str × List (List JsVal)) :
    sheetCands sheet
      = (((sheet.2.take MAX_SEARCH_ROWS).enum).flatMap (rowCands SOURCE_DEFINITIONS)).map
          (fun t => { sdef := t.1, headerRow := t.2.1, headerIndex := t.2.2,
                      sheetName := sheet.1, jsonData := sheet.2 }) := by
  simp only [sheetCands, rowCands, List.map_flatMap, List.map_map]
  rfl

lemma scanSheets_eq (sheets : List (Str × List (List JsVal))) :
    scanSheets sheets = (sheets.flatMap sheetCands).head? := by
  induction sheets with
  | nil => rfl
  | cons sheet rest ih =>
    obtain ⟨nm, rows⟩ := sheet
    rw [scanSheets, List.flatMap_cons, List.head?_append, sheetCands_eq, List.head?_map]
    have he : (rows.take MAX_SEARCH_ROWS).enum = (rows.take MAX_SEARCH_ROWS).enumFrom 0 := rfl
    rw [he, ← scanRows_eq]
    cases h : scanRows SOURCE_DEFINITIONS 0 (rows.take MAX_SEARCH_ROWS) with
    | some t =>
      obtain ⟨d, hr, i⟩ := t
      simp [h]
    | none => simp [h, ih]

/-- C1: on success, source identification returns the first matching
(definition, header row) pair — sheets in declared order, rows
top-to-bottom within the first 500 rows of each sheet, definitions in
catalog order within a row — where a row matches a definition exactly
when every whitespace-stripped signature keyword is a substring of some
whitespace-stripped trimmed cell, except that a row with fewer physical
columns than that definition's signature keywords is skipped as
malformed. -/
theorem c1_identifySource_first_match (wb : Workbook) :
    (identifySource wb).toOption = (scanCandidates wb).head? := by
  unfold identifySource
  rw [scanSheets_eq]
  have hc : scanCandidates wb = wb.sheets.flatMap sheetCands := rfl
  rw [hc]
  cases (wb.sheets.flatMap sheetCands).head? with
  | some s => rfl
  | none => rfl

/-- Strategy 1 of `getColIdx`: `headerRow.indexOf(target)` (exact
equality, first column wins). -/
def exactIdx (headerRow : List Str) (t : Str) : Option Nat :=
  headerRow.findIdx? (fun h => h == t)

/-- Strategy 2: `findIndex(h => h.replace(/\s+/g,'') === cleanTarget)`. -/
def fuzzyIdx (headerRow : List Str) (t : Str) : Option Nat :=
  headerRow.findIdx? (fun h => stripWs h == stripWs t)

/-- Strategy 3: `findIndex(h => h.includes(target))`. -/
def subIdx (headerRow : List Str) (t : Str) : Option Nat :=
  headerRow.findIdx? (fun h => isSubstr t h)

/-- The per-candidate body of `getColIdx`: the three successively looser
strategies, the first that yields a match short-circuiting the rest. -/
def resolveOne (headerRow : List Str) (t : Str) : Option Nat :=
  match exactIdx headerRow t with
  | some i => some i
  | none =>
    match fuzzyIdx headerRow t with
    | some i => some i
    | none => subIdx headerRow t

/-- `getColIdx` from `Processor.normalizeData`: candidate names in priority
order, three strategies per candidate, `-1` when nothing matches (also for
an empty candidate list). -/
def getColIdx (headerRow : List Str) : List Str → Int
  | [] => -1
  | t :: ts =>
    match resolveOne headerRow t with
    | some i => (i : Int)
    | none => getColIdx headerRow ts

/-- The wrapper `fieldName ? (Array.isArray(fieldName) ? fieldName : [fieldName]) : []`
for a single-name mapping entry (an absent or empty — falsy — name gives
no candidates). -/
def toCandidates : Option Str → List Str
  | none => []
  | some s => if s.isEmpty then [] else [s]

/-- C5: the field mapper tries exact equality, then whitespace-stripped
equality, then substring containment per candidate, the first match
short-circuiting the remaining strategies and candidates (first-candidate
resolution order over the candidate list); an exact match always wins over
the looser strategies for its candidate; an empty candidate list, or one
where no candidate matches under any strategy, yields `-1`. -/
theorem c5_getColIdx_resolution :
    (∀ (hr : List Str) (ts : List Str),
      getColIdx hr ts =
        (match ts.findSome? (resolveOne hr) with
         | some i => (i : Int)
         | none => -1))
    ∧ (∀ hr : List Str, getColIdx hr [] = -1)
    ∧ (∀ (hr : List Str) (ts : List Str),
        (∀ t ∈ ts, exactIdx hr t = none ∧ fuzzyIdx hr t = none ∧ subIdx hr t = none) →
        getColIdx hr ts = -1)
    ∧ (∀ (hr : List Str) (t : Str) (i : Nat),
        exactIdx hr t = some i → resolveOne hr t = some i) := by
  have hmain : ∀ (hr : List Str) (ts : List Str),
      getColIdx hr ts =
        (match ts.findSome? (resolveOne hr) with
         | some i => (i : Int)
         | none => -1) := by
    intro hr ts
    induction ts with
    | nil => rfl
    | cons t ts ih =>
      rw [getColIdx, List.findSome?_cons]
      cases h : resolveOne hr t with
      | some i => simp [h]
      | none => simp [h, ih]
  refine ⟨hmain, fun hr => rfl, ?_, ?_⟩
  · intro hr ts h
    rw [hmain]
    have hn : ts.findSome? (resolveOne hr) = none := by
      induction ts with
      | nil => rfl
      | cons t ts ih =>
        obtain ⟨h1, h2, h3⟩ := h t (by simp)
        rw [List.findSome?_cons]
        have hr1 : resolveOne hr t = none := by
          rw [resolveOne, h1, h2, h3]
        rw [hr1]
        exact ih (fun x hx => h x (List.mem_cons_of_mem _ hx))
    rw [hn]
  · intro hr t i h
    rw [resolveOne, h]

/-- The canonical transaction record.  The `id` field — a fresh
`crypto.randomUUID()` per record — is external randomness and is not part
of the model; record equality below is field-for-field equality of all
remaining fields. -/
structure Entry where
  date : Str
  time : JsVal
  amount : ℚ
  raw_description : Str
  item : Str
  category_detail : Str
  category_main : Str
  category_mso : Str
  raw_source : Str
  raw_filename : Str
deriving DecidableEq

/-- `row[idx]`: a negative or out-of-range index gives `undefined`. -/
def getCell (row : List JsVal) (idx : Int) : JsVal :=
  if idx < 0 then .absent else row.getD idx.toNat .absent

/-- `Processor.normalizeData` (current processor.js): one record per data
row below the header; rows with a falsy date cell are skipped; the amount
prefers the primary column, falls back to the alternate, and goes through
`extractKRW`. -/
def normalizeData (dp : Str → Option Int) (filename : Str)
    (jsonData : List (List JsVal)) (info : IdSuccess) : List Entry :=
  let hr := info.headerRow
  let idxDate := getColIdx hr (toCandidates info.sdef.date)
  let idxTime := getColIdx hr (toCandidates info.sdef.time)
  let idxDesc := getColIdx hr (toCandidates info.sdef.raw_description)
  let idxAmtMain := getColIdx hr (toCandidates info.sdef.amount)
  let idxAmtAlt := getColIdx hr (toCandidates info.sdef.amount_alt)
  (jsonData.drop (info.headerIndex + 1)).filterMap (fun row =>
    if row.isEmpty then none
    else if !(getCell row idxDate).truthy then none
    else
      let valAmount : JsVal :=
        if idxAmtMain != -1 && (getCell row idxAmtMain).truthy then getCell row idxAmtMain
        else if idxAmtAlt != -1 && (getCell row idxAmtAlt).truthy then getCell row idxAmtAlt
        else .num 0
      some {
        date := formatDateVal dp (getCell row idxDate),
        time := if idxTime != -1 && (getCell row idxTime).truthy then getCell row idxTime
                else .str [],
        amount := extractKRW valAmount,
        raw_description :=
          if idxDesc != -1 && (getCell row idxDesc).truthy
          then trimStr (jsToString (getCell row idxDesc)) else [],
        item := [], category_detail := [], category_main := [], category_mso := [],
        raw_source := info.sdef.name, raw_filename := filename })

/-- The inline amount cleaning of the older `normalizeData`:
`typeof valAmount === 'string' ? (parseFloat(valAmount.replace(/[^0-9.-]/g, '')) || 0) : valAmount`.
(The `absent` arm is unreachable — `valAmount` is always a chosen truthy
cell or the numeric literal 0.) -/
def cleanAmountV0 (v : JsVal) : ℚ :=
  match v with
  | .str s => (parseFloatQ (s.filter keepNumChar)).getD 0
  | .num q => q
  | .absent => 0

/-- `Processor.normalizeData` from the older processor source file:
identical to `normalizeData` except for the inline amount cleaning. -/
def normalizeDataV0 (dp : Str → Option Int) (filename : Str)
    (jsonData : List (List JsVal)) (info : IdSuccess) : List Entry :=
  let hr := info.headerRow
  let idxDate := getColIdx hr (toCandidates info.sdef.date)
  let idxTime := getColIdx hr (toCandidates info.sdef.time)
  let idxDesc := getColIdx hr (toCandidates info.sdef.raw_description)
  let idxAmtMain := getColIdx hr (toCandidates info.sdef.amount)
  let idxAmtAlt := getColIdx hr (toCandidates info.sdef.amount_alt)
  (jsonData.drop (info.headerIndex + 1)).filterMap (fun row =>
    if row.isEmpty then none
    else if !(getCell row idxDate).truthy then none
    else
      let valAmount : JsVal :=
        if idxAmtMain != -1 && (getCell row idxAmtMain).truthy then getCell row idxAmtMain
        else if idxAmtAlt != -1 && (getCell row idxAmtAlt).truthy then getCell row idxAmtAlt
        else .num 0
      some {
        date := formatDateVal dp (getCell row idxDate),
        time := if idxTime != -1 && (getCell row idxTime).truthy then getCell row idxTime
                else .str [],
        amount := cleanAmountV0 valAmount,
        raw_description :=
          if idxDesc != -1 && (getCell row idxDesc).truthy
          then trimStr (jsToString (getCell row idxDesc)) else [],
        item := [], category_detail := [], category_main := [], category_mso := [],
        raw_source := info.sdef.name, raw_filename := filename })

/-- C10 hypothesis: an amount cell is numeric or empty (absent or `''`). -/
def amountCellOk (v : JsVal) : Bool :=
  match v with
  | .num _ => true
  | .absent => true
  | .str s => s.isEmpty

/-- C10: on inputs whose resolved amount cells are all numeric or empty,
the two coexisting row-wise normalizers (inline cleaning vs `extractKRW`)
produce identical record sequences field-for-field (fresh `id`s excluded
from the record model). -/
theorem c10_normalizeData_equiv (dp : Str → Option Int) (filename : Str)
    (jsonData : List (List JsVal)) (info : IdSuccess)
    (h : ∀ row ∈ jsonData.drop (info.headerIndex + 1),
      amountCellOk (getCell row
        (getColIdx info.headerRow (toCandidates info.sdef.amount))) = true ∧
      amountCellOk (getCell row
        (getColIdx info.headerRow (toCandidates info.sdef.amount_alt))) = true) :
    normalizeDataV0 dp filename jsonData info = normalizeData dp filename jsonData info := by
  unfold normalizeDataV0 normalizeData
  apply List.filterMap_congr
  intro row hrow
  obtain ⟨hmain, halt⟩ := h row hrow
  by_cases hemp : row.isEmpty
  · simp [hemp]
  · simp only [hemp, Bool.false_eq_true, if_false]
    by_cases hdate :
        (getCell row (getColIdx info.headerRow (toCandidates info.sdef.date))).truthy
    · simp only [hdate, Bool.not_true, Bool.false_eq_true, if_false]
      have hamt : ∀ v : JsVal, amountCellOk v = true → v.truthy = true →
          cleanAmountV0 v = extractKRW v := by
        intro v hok htr
        cases v with
        | num q => rfl
        | absent => simp [JsVal.truthy] at htr
        | str s =>
          simp only [amountCellOk] at hok
          simp [JsVal.truthy, hok] at htr
      by_cases hm : (getColIdx info.headerRow (toCandidates info.sdef.amount) != -1
          && (getCell row (getColIdx info.headerRow (toCandidates info.sdef.amount))).truthy)
          = true
      · have htr := (Bool.and_eq_true _ _).mp hm
        rw [if_pos hm, hamt _ hmain htr.2]
      · by_cases ha : (getColIdx info.headerRow (toCandidates info.sdef.amount_alt) != -1
            && (getCell row
                (getColIdx info.headerRow (toCandidates info.sdef.amount_alt))).truthy)
            = true
        · have htr := (Bool.and_eq_true _ _).mp ha
          rw [if_neg hm, if_pos ha, hamt _ halt htr.2]
        · rw [if_neg hm, if_neg ha]
          rfl
    · simp [hdate]

/-- The single-name `getColIdx` helper of `normalizeSalarySummary`
(no array support; a falsy field name gives `-1`; same three strategies). -/
def getColIdxSingle (headerRow : List Str) : Option Str → Int
  | none => -1
  | some t =>
    if t.isEmpty then -1
    else
      match resolveOne headerRow t with
      | some i => (i : Int)
      | none => -1

/-- One cell of the totals-row scan: falsy cells contribute nothing; else
the whitespace-stripped trimmed text must contain (or equal) `'합계'`. -/
def cellHasTotal (c : JsVal) : Bool :=
  c.truthy &&
    (isSubstr "합계".toList (stripWs (trimStr (jsToString c))) ||
     stripWs (trimStr (jsToString c)) == "합계".toList)

/-- `row.some(cell => ...)` for the totals marker. -/
def rowContainsTotal (row : List JsVal) : Bool := row.any cellHasTotal

/-- `x || 0` on a cell value. -/
def jsOrZero (v : JsVal) : JsVal := if v.truthy then v else .num 0

/-- `Processor.normalizeSalarySummary`: find the first row below the header
any of whose cells contains `'합계'`, and synthesize three fixed records
from it (net payment, total deduction, and one-twelfth of their sum), all
dated today; no such row yields no records.  `today` is the current date's
(local = UTC) calendar fields. -/
def normalizeSalarySummary (today : Int × Int × Int) (filename : Str)
    (jsonData : List (List JsVal)) (info : IdSuccess) : List Entry :=
  let idxNet := getColIdxSingle info.headerRow info.sdef.net_payment
  let idxDed := getColIdxSingle info.headerRow info.sdef.total_deduction
  match (jsonData.drop (info.headerIndex + 1)).find? rowContainsTotal with
  | none => []
  | some totalRow =>
    let netPaymentValue := extractKRW (jsOrZero (getCell totalRow idxNet))
    let totalDeductionValue := extractKRW (jsOrZero (getCell totalRow idxDed))
    let stdDate := formatDateObj today.1 today.2.1 today.2.2
    [ { date := stdDate, time := .str [], amount := netPaymentValue,
        raw_description := "직원 인건비".toList, item := "직원인건비".toList,
        category_detail := [], category_main := "직원인건비".toList,
        category_mso := "MSO인정경비".toList,
        raw_source := info.sdef.name, raw_filename := filename },
      { date := stdDate, time := .str [], amount := totalDeductionValue,
        raw_description := "직원소득세".toList, item := "직원소득세".toList,
        category_detail := [], category_main := "직원인건비".toList,
        category_mso := "MSO인정경비".toList,
        raw_source := info.sdef.name, raw_filename := filename },
      { date := stdDate, time := .str [],
        amount := (netPaymentValue + totalDeductionValue) / 12,
        raw_description := "직원 퇴직연금".toList, item := "직원 퇴직연금".toList,
        category_detail := [], category_main := "직원인건비".toList,
        category_mso := "MSO인정경비".toList,
        raw_source := info.sdef.name, raw_filename := filename } ]

/-- C2: the payroll-summary normalizer scans the rows below the header for
the first one containing the whitespace-stripped totals marker `'합계'` in
any cell; from that row it emits exactly three records — net payment,
total deduction, and one-twelfth of their sum — all bearing today's date,
so the amounts sum to `net + ded + (net + ded) / 12`; with no such row it
emits zero records. -/
theorem c2_salary_summary (today : Int × Int × Int) (filename : Str)
    (jsonData : List (List JsVal)) (info : IdSuccess) :
    ((jsonData.drop (info.headerIndex + 1)).find? rowContainsTotal = none →
      normalizeSalarySummary today filename jsonData info = [])
    ∧ (∀ totalRow,
        (jsonData.drop (info.headerIndex + 1)).find? rowContainsTotal = some totalRow →
        (normalizeSalarySummary today filename jsonData info).length = 3
        ∧ (∀ e ∈ normalizeSalarySummary today filename jsonData info,
            e.date = formatDateObj today.1 today.2.1 today.2.2)
        ∧ ((normalizeSalarySummary today filename jsonData info).map Entry.amount
            = [extractKRW (jsOrZero (getCell totalRow
                  (getColIdxSingle info.headerRow info.sdef.net_payment))),
               extractKRW (jsOrZero (getCell totalRow
                  (getColIdxSingle info.headerRow info.sdef.total_deduction))),
               (extractKRW (jsOrZero (getCell totalRow
                  (getColIdxSingle info.headerRow info.sdef.net_payment)))
                + extractKRW (jsOrZero (getCell totalRow
                  (getColIdxSingle info.headerRow info.sdef.total_deduction)))) / 12])
        ∧ ((normalizeSalarySummary today filename jsonData info).map Entry.amount).sum
            = extractKRW (jsOrZero (getCell totalRow
                  (getColIdxSingle info.headerRow info.sdef.net_payment)))
              + extractKRW (jsOrZero (getCell totalRow
                  (getColIdxSingle info.headerRow info.sdef.total_deduction)))
              + (extractKRW (jsOrZero (getCell totalRow
                    (getColIdxSingle info.headerRow info.sdef.net_payment)))
                 + extractKRW (jsOrZero (getCell totalRow
                    (getColIdxSingle info.headerRow info.sdef.total_deduction)))) / 12) := by
  constructor
  · intro hnone
    unfold normalizeSalarySummary
    rw [hnone]
  · intro totalRow hsome
    unfold normalizeSalarySummary
    rw [hsome]
    refine ⟨rfl, ?_, rfl, ?_⟩
    · intro e he
      simp only [List.mem_cons, List.not_mem_nil, or_false] at he
      rcases he with h | h | h <;> rw [h]
    · simp only [List.map_cons, List.map_nil, List.sum_cons, List.sum_nil]
      ring

/-- A classification rule's partial update set (`undefined` fields are
absent; present fields may be any string, including empty). -/
structure RuleUpdates where
  item : Option Str
  description_out : Option Str
  category_detail : Option Str
  category_main : Option Str
  category_mso : Option Str
deriving DecidableEq

/-- A classification rule from `CLASSIFICATION_RULES` (rules.js). -/
structure Rule where
  keywords : List Str
  updates : Option RuleUpdates
deriving DecidableEq

/-- `keywords.some(k => desc.includes(k.toLowerCase()))` where
`desc = entry.raw_description.toLowerCase()`. -/
def ruleMatches (rule : Rule) (e : Entry) : Bool :=
  rule.keywords.any (fun k => isSubstr (toLowerStr k) (toLowerStr e.raw_description))

/-- Apply one rule's update set, exactly as the source does: `item` first,
then the legacy `description_out` (which only fills `item` when `item` is
still falsy at that point), then the three category fields. -/
def applyRuleUpdates (rule : Rule) (e : Entry) : Entry :=
  match rule.updates with
  | none => e
  | some u =>
    let e1 := match u.item with
      | some v => { e with item := v }
      | none => e
    let e2 := match u.description_out with
      | some v => if e1.item.isEmpty then { e1 with item := v } else e1
      | none => e1
    let e3 := match u.category_detail with
      | some v => { e2 with category_detail := v }
      | none => e2
    let e4 := match u.category_main with
      | some v => { e3 with category_main := v }
      | none => e3
    match u.category_mso with
    | some v => { e4 with category_mso := v }
    | none => e4

/-- The inner rule loop of `classifyData`: first matching rule applied,
then `break`. -/
def applyRulesEntry : List Rule → Entry → Entry
  | [], e => e
  | r :: rs, e => if ruleMatches r e then applyRuleUpdates r e else applyRulesEntry rs e

/-- A classified record: the derived display fields the classifier adds in
place (a JS `''` initial value is modelled as `none`). -/
structure ClassifiedEntry where
  base : Entry
  display_date : Str
  col_transfer : Option ℚ
  col_account : Option Str
  col_cash : Option ℚ
  col_card : Option ℚ
  col_card_detail : Option Str
deriving DecidableEq

/-- The derived-columns loop of `classifyData`: the card marker check
precedes the account marker check; both absent route to cash. -/
def deriveChannels (e : Entry) : ClassifiedEntry :=
  if isSubstr "카드".toList e.raw_source then
    { base := e, display_date := e.date, col_transfer := none, col_account := none,
      col_cash := none, col_card := some e.amount, col_card_detail := some e.raw_source }
  else if isSubstr "계좌".toList e.raw_source then
    { base := e, display_date := e.date, col_transfer := some e.amount,
      col_account := some e.raw_source, col_cash := none, col_card := none,
      col_card_detail := none }
  else
    { base := e, display_date := e.date, col_transfer := none, col_account := none,
      col_cash := some e.amount, col_card := none, col_card_detail := none }

/-- `Processor.classifyData`: apply the ordered rule catalog to every
record (first match wins), then derive the payment-channel columns. -/
def classifyData (rules : List Rule) (data : List Entry) : List ClassifiedEntry :=
  (data.map (fun e => applyRulesEntry rules e)).map deriveChannels

lemma deriveChannels_base (e : Entry) : (deriveChannels e).base = e := by
  unfold deriveChannels
  split_ifs <;> rfl

lemma applyRuleUpdates_outside (r : Rule) (e : Entry) :
    (applyRuleUpdates r e).raw_description = e.raw_description
    ∧ (applyRuleUpdates r e).date = e.date
    ∧ (applyRuleUpdates r e).time = e.time
    ∧ (applyRuleUpdates r e).amount = e.amount
    ∧ (applyRuleUpdates r e).raw_source = e.raw_source
    ∧ (applyRuleUpdates r e).raw_filename = e.raw_filename := by
  unfold applyRuleUpdates
  rcases r.updates with _ | u
  · simp
  · rcases u with ⟨i, d, cd, cm, cmso⟩
    rcases i with _ | iv <;> rcases d with _ | dv <;> rcases cd with _ | cdv <;>
      rcases cm with _ | cmv <;> rcases cmso with _ | cmsov <;>
      simp <;> split_ifs <;> simp

lemma applyRulesEntry_eq_find (rules : List Rule) (e : Entry) :
    applyRulesEntry rules e =
      (match rules.find? (fun r => ruleMatches r e) with
       | some r => applyRuleUpdates r e
       | none => e) := by
  induction rules with
  | nil => rfl
  | cons r rs ih =>
    rw [applyRulesEntry, List.find?_cons]
    cases h : ruleMatches r e with
    | true => simp [h]
    | false => simp [h, ih]

/-- C3: the classifier walks the rule catalog in order; the first matching
rule — any keyword a case-insensitive substring of `raw_description` — is
applied and evaluation stops (no cumulative merging); unmatched records
are left unchanged (classification fields stay blank); only the fields
present in the rule's update set are touched; and `raw_description` is
never mutated by classification. -/
theorem c3_classify_first_rule :
    (∀ (rules : List Rule) (e : Entry),
      applyRulesEntry rules e =
        (match rules.find? (fun r => ruleMatches r e) with
         | some r => applyRuleUpdates r e
         | none => e))
    ∧ (∀ (rules : List Rule) (e : Entry),
        rules.find? (fun r => ruleMatches r e) = none → applyRulesEntry rules e = e)
    ∧ (∀ (r : Rule) (e : Entry),
        (applyRuleUpdates r e).raw_description = e.raw_description
        ∧ (applyRuleUpdates r e).date = e.date
        ∧ (applyRuleUpdates r e).time = e.time
        ∧ (applyRuleUpdates r e).amount = e.amount
        ∧ (applyRuleUpdates r e).raw_source = e.raw_source
        ∧ (applyRuleUpdates r e).raw_filename = e.raw_filename)
    ∧ (∀ (r : Rule) (u : RuleUpdates) (e : Entry), r.updates = some u →
        (u.category_detail = none →
          (applyRuleUpdates r e).category_detail = e.category_detail)
        ∧ (u.category_main = none →
          (applyRuleUpdates r e).category_main = e.category_main)
        ∧ (u.category_mso = none →
          (applyRuleUpdates r e).category_mso = e.category_mso)
        ∧ (u.item = none → u.description_out = none →
          (applyRuleUpdates r e).item = e.item))
    ∧ (∀ (rules : List Rule) (data : List Entry),
        (classifyData rules data).map (fun c => c.base.raw_description)
          = data.map Entry.raw_description) := by
  refine ⟨applyRulesEntry_eq_find, ?_, applyRuleUpdates_outside, ?_, ?_⟩
  · intro rules e h
    rw [applyRulesEntry_eq_find, h]
  · intro r u e hu
    unfold applyRuleUpdates
    rw [hu]
    rcases u with ⟨i, d, cd, cm, cmso⟩
    refine ⟨?_, ?_, ?_, ?_⟩
    · intro hcd
      simp only at hcd
      subst hcd
      rcases i with _ | iv <;> rcases d with _ | dv <;> rcases cm with _ | cmv <;>
        rcases cmso with _ | cmsov <;> simp <;> split_ifs <;> simp
    · intro hcm
      simp only at hcm
      subst hcm
      rcases i with _ | iv <;> rcases d with _ | dv <;> rcases cd with _ | cdv <;>
        rcases cmso with _ | cmsov <;> simp <;> split_ifs <;> simp
    · intro hcmso
      simp only at hcmso
      subst hcmso
      rcases i with _ | iv <;> rcases d with _ | dv <;> rcases cd with _ | cdv <;>
        rcases cm with _ | cmv <;> simp <;> split_ifs <;> simp
    · intro hi hd
      simp only at hi hd
      subst hi
      subst hd
      rcases cd with _ | cdv <;> rcases cm with _ | cmv <;>
        rcases cmso with _ | cmsov <;> simp
  · intro rules data
    unfold classifyData
    rw [List.map_map, List.map_map]
    apply List.map_congr_left
    intro e he
    have h1 : (deriveChannels (applyRulesEntry rules e)).base = applyRulesEntry rules e :=
      deriveChannels_base _
    have h2 : (applyRulesEntry rules e).raw_description = e.raw_description := by
      rw [applyRulesEntry_eq_find]
      cases h : rules.find? (fun r => ruleMatches r e) with
      | some r => exact (applyRuleUpdates_outside r e).1
      | none => rfl
    simp [Function.comp, h1, h2]

/-- C4: after classification exactly one of the three payment-channel
groups is populated, derived solely from substring checks on
`raw_source`: the card check precedes the account check (a name with both
markers goes to the card column), and a name with neither goes to cash. -/
theorem c4_channel_exclusive (e : Entry) :
    (isSubstr "카드".toList e.raw_source = true →
      (deriveChannels e).col_card = some e.amount
      ∧ (deriveChannels e).col_card_detail = some e.raw_source
      ∧ (deriveChannels e).col_transfer = none
      ∧ (deriveChannels e).col_account = none
      ∧ (deriveChannels e).col_cash = none)
    ∧ (isSubstr "카드".toList e.raw_source = false →
       isSubstr "계좌".toList e.raw_source = true →
      (deriveChannels e).col_transfer = some e.amount
      ∧ (deriveChannels e).col_account = some e.raw_source
      ∧ (deriveChannels e).col_card = none
      ∧ (deriveChannels e).col_card_detail = none
      ∧ (deriveChannels e).col_cash = none)
    ∧ (isSubstr "카드".toList e.raw_source = false →
       isSubstr "계좌".toList e.raw_source = false →
      (deriveChannels e).col_cash = some e.amount
      ∧ (deriveChannels e).col_card = none
      ∧ (deriveChannels e).col_card_detail = none
      ∧ (deriveChannels e).col_transfer = none
      ∧ (deriveChannels e).col_account = none)
    ∧ (((deriveChannels e).col_card.isSome && !(deriveChannels e).col_transfer.isSome
          && !(deriveChannels e).col_cash.isSome)
       || (!(deriveChannels e).col_card.isSome && (deriveChannels e).col_transfer.isSome
          && !(deriveChannels e).col_cash.isSome)
       || (!(deriveChannels e).col_card.isSome && !(deriveChannels e).col_transfer.isSome
          && (deriveChannels e).col_cash.isSome)) = true := by
  by_cases hc : isSubstr "카드".toList e.raw_source = true
  · refine ⟨fun _ => ?_, fun h _ => by rw [h] at hc; simp at hc,
      fun h _ => by rw [h] at hc; simp at hc, ?_⟩
    · unfold deriveChannels
      rw [if_pos hc]
      exact ⟨rfl, rfl, rfl, rfl, rfl⟩
    · unfold deriveChannels
      rw [if_pos hc]
      rfl
  · have hc' : isSubstr "카드".toList e.raw_source = false := by
      cases h : isSubstr "카드".toList e.raw_source
      · rfl
      · exact absurd h hc
    by_cases ha : isSubstr "계좌".toList e.raw_source = true
    · refine ⟨fun h => absurd h hc, fun _ _ => ?_,
        fun _ h => by rw [h] at ha; simp at ha, ?_⟩
      · unfold deriveChannels
        rw [if_neg hc, if_pos ha]
        exact ⟨rfl, rfl, rfl, rfl, rfl⟩
      · unfold deriveChannels
        rw [if_neg hc, if_pos ha]
        rfl
    · refine ⟨fun h => absurd h hc, fun _ h => absurd h ha, fun _ _ => ?_, ?_⟩
      · unfold deriveChannels
        rw [if_neg hc, if_neg ha]
        exact ⟨rfl, rfl, rfl, rfl, rfl⟩
      · unfold deriveChannels
        rw [if_neg hc, if_neg ha]
        rfl

/-- The identification-failure record `{error: true, filename, msg}`
that `processFile` resolves with. -/
structure ErrorRecord where
  filename : Str
  msg : Str
deriving DecidableEq

/-- The failure message `식별 실패. 헤더: [...]`. -/
def errMsg (h : Str) : Str := "식별 실패. 헤더: [".toList ++ h ++ "]".toList

/-- The `salary_summary` type tag tested by `processFile`. -/
def salaryType : Str := "salary_summary".toList

/-- `Processor.processFile` after the container parse (reading the file
bytes and `XLSX.read` are external collaborators): identify the source,
then normalize — the payroll-summary variant for `salary_summary`
definitions, row-wise otherwise — then classify.  An identification
failure resolves with a single error record; normalization never runs
without a confirmed definition. -/
def processWorkbook (dp : Str → Option Int) (rules : List Rule)
    (today : Int × Int × Int) (filename : Str) (wb : Workbook) :
    Except ErrorRecord (List ClassifiedEntry) :=
  match identifySource wb with
  | .failure h => .error { filename := filename, msg := errMsg h }
  | .success info =>
    .ok (classifyData rules
      (if info.sdef.type == salaryType
       then normalizeSalarySummary today filename info.jsonData info
       else normalizeData dp filename info.jsonData info))

/-- C8: whenever no signature matches, identification fails carrying the
probe built from the first ten columns of the first sheet's first row
(absent data rendering as the literal `'EMPTY'` marker), and the pipeline
returns the single error record without running any normalization. -/
theorem c8_identify_failure_diagnostic (wb : Workbook) (dp : Str → Option Int)
    (rules : List Rule) (today : Int × Int × Int) (filename : Str) :
    (∀ h : Str, identifySource wb = IdResult.failure h →
      h = probeString wb
      ∧ processWorkbook dp rules today filename wb
          = Except.error { filename := filename, msg := errMsg h })
    ∧ (wb.sheets.head?.bind (fun sheet => sheet.2.head?) = none →
        probeString wb = "EMPTY".toList) := by
  constructor
  · intro h hfail
    have hp : h = probeString wb := by
      unfold identifySource at hfail
      cases hs : scanSheets wb.sheets with
      | some s => rw [hs] at hfail; exact absurd hfail (by simp)
      | none =>
        rw [hs] at hfail
        have := IdResult.failure.inj hfail.symm
        exact this
    refine ⟨hp, ?_⟩
    unfold processWorkbook
    rw [hfail]
  · intro habs
    unfold probeString
    cases h1 : wb.sheets.head? with
    | none => rfl
    | some sheet =>
      rw [h1] at habs
      have habs' : sheet.2.head? = none := habs
      simp [habs']

/-- Case-insensitive test for a leading `<td` (the start of the `$1` open
tag or the `$3` target of the repair regex `/(<td[^>]*>)([^<]*?)(<td)/gi`
in `Processor.preprocessHtmlIfNeeded`). -/
def isTdOpen (s : Str) : Bool :=
  match s with
  | a :: b :: c :: _ => a == '<' && lowc b == 't' && lowc c == 'd'
  | _ => false

lemma isTdOpen_length {s : Str} (h : isTdOpen s = true) : 3 ≤ s.length := by
  match s with
  | [] => simp [isTdOpen] at h
  | [a] => simp [isTdOpen] at h
  | [a, b] => simp [isTdOpen] at h
  | a :: b :: c :: rest => simp

/-- Attempt the repair-regex match at the start of `s` (caller has checked
that `s` begins with `<td`): the greedy `[^>]*` run, the tag-closing `>`,
the lazy `[^<]*?` run, then a case-insensitive `<td`.  On success return
the replacement text `$1$2</td>$3` and the remainder after the match. -/
def tryMatch (s : Str) : Option (Str × Str) :=
  match s with
  | a :: b :: c :: rest =>
    let alpha := rest.takeWhile (fun x => x != '>')
    let r1 := rest.dropWhile (fun x => x != '>')
    let r2 := r1.drop 1
    let beta := r2.takeWhile (fun x => x != '<')
    let r3 := r2.dropWhile (fun x => x != '<')
    if r1.isEmpty then none
    else if isTdOpen r3 then
      some (a :: b :: c ::
              (alpha ++ r1.take 1 ++ beta ++ "</td>".toList ++ r3.take 3),
            r3.drop 3)
    else none
  | _ => none

lemma dropWhile_head_not {p : Char → Bool} {l : Str} {g : Char} {r : Str}
    (h : l.dropWhile p = g :: r) : p g = false := by
  induction l with
  | nil => simp at h
  | cons a t ih =>
    rw [List.dropWhile_cons] at h
    by_cases hp : p a = true
    · rw [if_pos hp] at h
      exact ih h
    · rw [if_neg hp] at h
      injection h with h1 h2
      subst h1
      cases hb : p a
      · rfl
      · exact absurd hb hp

lemma tryMatch_decomp {s : Str} {p : Str × Str} (h : tryMatch s = some p) :
    ∃ a b c alpha beta r3,
      s = a :: b :: c :: (alpha ++ '>' :: (beta ++ r3))
      ∧ p.1 = a :: b :: c ::
          (alpha ++ '>' :: (beta ++ ('<' :: '/' :: 't' :: 'd' :: '>' :: r3.take 3)))
      ∧ p.2 = r3.drop 3
      ∧ (∀ x ∈ alpha, (x != '>') = true)
      ∧ (∀ x ∈ beta, (x != '<') = true)
      ∧ isTdOpen r3 = true := by
  match s with
  | [] => simp [tryMatch] at h
  | [a] => simp [tryMatch] at h
  | [a, b] => simp [tryMatch] at h
  | a :: b :: c :: rest =>
    simp only [tryMatch] at h
    by_cases h1 : (rest.dropWhile (fun x => x != '>')).isEmpty = true
    · rw [if_pos h1] at h
      exact absurd h (by simp)
    · rw [if_neg h1] at h
      cases hr1 : rest.dropWhile (fun x => x != '>') with
      | nil => rw [hr1] at h1; exact absurd rfl h1
      | cons g r2 =>
        have hg : g = '>' := by
          have := dropWhile_head_not hr1
          simpa using this
        subst hg
        rw [hr1] at h
        by_cases h2 : isTdOpen ((('>' :: r2).drop 1).dropWhile (fun x => x != '<')) = true
        · rw [if_pos h2] at h
          have hp := Option.some.inj h
          refine ⟨a, b, c, rest.takeWhile (fun x => x != '>'),
            r2.takeWhile (fun x => x != '<'),
            r2.dropWhile (fun x => x != '<'), ?_, ?_, ?_, ?_, ?_, ?_⟩
          · have e1 : rest.takeWhile (fun x => x != '>')
                ++ rest.dropWhile (fun x => x != '>') = rest :=
              List.takeWhile_append_dropWhile _ _
            have e2 : r2.takeWhile (fun x => x != '<')
                ++ r2.dropWhile (fun x => x != '<') = r2 :=
              List.takeWhile_append_dropWhile _ _
            rw [e2, ← hr1, e1]
          · rw [← hp]
            simp
          · rw [← hp]
            simp
          · exact fun x hx => by simpa using List.mem_takeWhile_imp hx
          · exact fun x hx => by simpa using List.mem_takeWhile_imp hx
          · simpa using h2
        · rw [if_neg h2] at h
          exact absurd h (by simp)

lemma tryMatch_rest_lt {s : Str} {p : Str × Str} (h : tryMatch s = some p) :
    p.2.length < s.length := by
  obtain ⟨a, b, c, alpha, beta, r3, hs, _, h2, _, _, htd⟩ := tryMatch_decomp h
  have h3 := isTdOpen_length htd
  rw [hs, h2]
  simp only [List.length_drop, List.length_cons, List.length_append]
  omega

lemma tryMatch_lengths {s : Str} {p : Str × Str} (h : tryMatch s = some p) :
    p.1.length + p.2.length = s.length + 5 := by
  obtain ⟨a, b, c, alpha, beta, r3, hs, h1, h2, _, _, htd⟩ := tryMatch_decomp h
  have h3 := isTdOpen_length htd
  rw [hs, h1, h2]
  simp only [List.length_drop, List.length_cons, List.length_append, List.length_take]
  omega

/-- One pass of
`fullText.replace(/(<td[^>]*>)([^<]*?)(<td)/gi, '$1$2</td>$3')`:
scan left to right, attempting the match at every `<td` (no match can
start inside the three matched characters), emitting the replacement on
success and continuing after the matched text. -/
def onePass (s : Str) : Str :=
  if _htd : isTdOpen s = true then
    match _hm : tryMatch s with
    | some p => p.1 ++ onePass p.2
    | none => s.take 3 ++ onePass (s.drop 3)
  else
    match s with
    | [] => []
    | c :: cs => c :: onePass cs
termination_by s.length
decreasing_by
  · exact tryMatch_rest_lt _hm
  · have := isTdOpen_length _htd
    simp only [List.length_drop]
    omega
  · simp

lemma onePass_eq_match {s : Str} {p : Str × Str}
    (htd : isTdOpen s = true) (hm : tryMatch s = some p) :
    onePass s = p.1 ++ onePass p.2 := by
  conv_lhs => unfold onePass
  rw [dif_pos htd]
  split
  · rename_i p' hp'
    rw [hm] at hp'
    cases hp'
    rfl
  · rename_i hp'
    rw [hm] at hp'
    exact absurd hp' (by simp)

lemma onePass_eq_skip {s : Str}
    (htd : isTdOpen s = true) (hm : tryMatch s = none) :
    onePass s = s.take 3 ++ onePass (s.drop 3) := by
  conv_lhs => unfold onePass
  rw [dif_pos htd]
  split
  · rename_i p' hp'
    rw [hm] at hp'
    exact absurd hp' (by simp)
  · rfl

lemma onePass_nil : onePass [] = [] := by
  conv_lhs => unfold onePass
  rfl

lemma onePass_eq_copy {c : Char} {cs : Str} (htd : isTdOpen (c :: cs) = false) :
    onePass (c :: cs) = c :: onePass cs := by
  conv_lhs => unfold onePass
  rw [dif_neg (by simp [htd])]

/-- Left-context states of the alive-`<td` scan: `N` — no pending open
tag; `T` — inside `<td[^>]*`, awaiting the tag-closing `>`; `D` — past
that `>` with no `<` since (a `<td` read here is a possible `$3` target
of the repair regex). -/
inductive TdState where
  | N
  | T
  | D
deriving DecidableEq

/-- One-character transition (for characters not starting a `<td`
lookahead, which the scan below consumes as a unit). -/
def tdStep : TdState → Char → TdState
  | .N, _ => .N
  | .T, c => if c == '>' then .D else .T
  | .D, c => if c == '<' then .N else .D

/-- The number of `<td` occurrences read in state `D` — exactly the
occurrences the repair regex can still target, the decreasing measure of
the multi-pass repair loop. -/
def aliveCount (st : TdState) (s : Str) : Nat :=
  if _htd : isTdOpen s = true then
    (if st = .D then 1 else 0) + aliveCount .T (s.drop 3)
  else
    match s with
    | [] => 0
    | c :: cs => aliveCount (tdStep st c) cs
termination_by s.length
decreasing_by
  · have := isTdOpen_length _htd
    simp only [List.length_drop]
    omega
  · simp

lemma aliveCount_td {st : TdState} {s : Str} (htd : isTdOpen s = true) :
    aliveCount st s = (if st = TdState.D then 1 else 0) + aliveCount .T (s.drop 3) := by
  conv_lhs => unfold aliveCount
  rw [dif_pos htd]

lemma aliveCount_nil {st : TdState} : aliveCount st [] = 0 := by
  conv_lhs => unfold aliveCount
  rfl

lemma aliveCount_cons {st : TdState} {c : Char} {cs : Str}
    (htd : isTdOpen (c :: cs) = false) :
    aliveCount st (c :: cs) = aliveCount (tdStep st c) cs := by
  conv_lhs => unfold aliveCount
  rw [dif_neg (by simp [htd])]

lemma isTdOpen_first_ne {c : Char} (l : Str) (h : (c == '<') = false) :
    isTdOpen (c :: l) = false := by
  match l with
  | [] => rfl
  | [x] => rfl
  | x :: y :: _ => simp [isTdOpen, h]

lemma isTdOpen_snd_gt {a : Char} (l : Str) : isTdOpen (a :: '>' :: l) = false := by
  match l with
  | [] => rfl
  | c :: _ => simp [isTdOpen, show lowc '>' = '>' from rfl]

lemma isTdOpen_third_gt {a x : Char} (l : Str) : isTdOpen (a :: x :: '>' :: l) = false := by
  simp [isTdOpen, show lowc '>' = '>' from rfl]

lemma aliveCount_T_alpha :
    ∀ (n : Nat) (alpha : Str), alpha.length ≤ n →
      ∀ r : Str, (∀ x ∈ alpha, (x != '>') = true) → r.head? = some '>' →
      aliveCount .T (alpha ++ r) = aliveCount .T r := by
  intro n
  induction n with
  | zero =>
    intro alpha hlen r _ _
    have h0 : alpha = [] := List.length_eq_zero.mp (Nat.le_zero.mp hlen)
    subst h0
    rfl
  | succ n ih =>
    intro alpha hlen r halpha hr
    obtain ⟨rt, hrt⟩ : ∃ rt, r = '>' :: rt := by
      cases r with
      | nil => simp at hr
      | cons x rt =>
        have hx : x = '>' := by simpa using hr
        subst hx
        exact ⟨rt, rfl⟩
    subst hrt
    match alpha with
    | [] => rfl
    | a :: alpha' =>
      have ha : (a == '>') = false := by simpa using halpha a (by simp)
      match alpha' with
      | [] =>
        rw [show ([a] : Str) ++ '>' :: rt = a :: '>' :: rt from rfl,
            aliveCount_cons (isTdOpen_snd_gt rt)]
        have hstep : tdStep .T a = .T := by simp [tdStep, ha]
        rw [hstep]
      | [x] =>
        have hx : (x == '>') = false := by simpa using halpha x (by simp)
        rw [show ([a, x] : Str) ++ '>' :: rt = a :: x :: '>' :: rt from rfl,
            aliveCount_cons (by
              by_cases h3 : isTdOpen (a :: x :: '>' :: rt) = true
              · exact absurd h3 (by rw [isTdOpen_third_gt]; simp)
              · simpa using h3)]
        have hstep : tdStep .T a = .T := by simp [tdStep, ha]
        rw [hstep, aliveCount_cons (isTdOpen_snd_gt rt)]
        have hstep2 : tdStep .T x = .T := by simp [tdStep, hx]
        rw [hstep2]
      | x :: y :: alpha'' =>
        by_cases htd : isTdOpen (a :: (x :: y :: alpha'' ++ '>' :: rt)) = true
        · rw [show (a :: x :: y :: alpha'' : Str) ++ '>' :: rt
                = a :: (x :: y :: alpha'' ++ '>' :: rt) from rfl,
              aliveCount_td htd]
          have hdrop : (a :: (x :: y :: alpha'' ++ '>' :: rt)).drop 3
              = alpha'' ++ '>' :: rt := rfl
          rw [hdrop,
              ih alpha'' (by simp at hlen ⊢; omega) ('>' :: rt)
                (fun z hz => halpha z (by simp [hz])) rfl]
          simp
        · have htd' : isTdOpen (a :: (x :: y :: alpha'' ++ '>' :: rt)) = false := by
            simpa using htd
          rw [show (a :: x :: y :: alpha'' : Str) ++ '>' :: rt
                = a :: (x :: y :: alpha'' ++ '>' :: rt) from rfl,
              aliveCount_cons htd']
          have hstep : tdStep .T a = .T := by simp [tdStep, ha]
          rw [hstep,
              ih (x :: y :: alpha'') (by simp at hlen ⊢; omega) ('>' :: rt)
                (fun z hz => halpha z (by simp at hz ⊢; tauto)) rfl]

lemma aliveCount_D_beta (beta : Str) (r : Str)
    (hbeta : ∀ x ∈ beta, (x != '<') = true) :
    aliveCount .D (beta ++ r) = aliveCount .D r := by
  induction beta with
  | nil => rfl
  | cons b beta' ih =>
    have hb : (b == '<') = false := by simpa using hbeta b (by simp)
    rw [show (b :: beta') ++ r = b :: (beta' ++ r) from rfl,
        aliveCount_cons (isTdOpen_first_ne _ hb)]
    have hstep : tdStep .D b = .D := by simp [tdStep, hb]
    rw [hstep]
    exact ih (fun z hz => hbeta z (by simp [hz]))

lemma aliveCount_D_closeTd (r : Str) :
    aliveCount .D ('<' :: '/' :: 't' :: 'd' :: '>' :: r) = aliveCount .N r := by
  rw [aliveCount_cons (show isTdOpen ('<' :: '/' :: 't' :: 'd' :: '>' :: r) = false from rfl),
      show tdStep .D '<' = .N from rfl,
      aliveCount_cons (isTdOpen_first_ne _ (by decide)),
      show tdStep .N '/' = .N from rfl,
      aliveCount_cons (isTdOpen_first_ne _ (by decide)),
      show tdStep .N 't' = .N from rfl,
      aliveCount_cons (isTdOpen_first_ne _ (by decide)),
      show tdStep .N 'd' = .N from rfl,
      aliveCount_cons (isTdOpen_first_ne _ (by decide)),
      show tdStep .N '>' = .N from rfl]

lemma isTdOpen_take_append {r3 : Str} (htd : isTdOpen r3 = true) (X : Str) :
    isTdOpen (r3.take 3 ++ X) = true ∧ (r3.take 3 ++ X).drop 3 = X := by
  match r3 with
  | [] => simp [isTdOpen] at htd
  | [a] => simp [isTdOpen] at htd
  | [a, b] => simp [isTdOpen] at htd
  | a :: b :: c :: rest =>
    constructor
    · simpa [isTdOpen] using htd
    · rfl

lemma aliveCount_of_match {s : Str} {p : Str × Str} (st : TdState)
    (htd : isTdOpen s = true) (hm : tryMatch s = some p) :
    aliveCount st s = (if st = TdState.D then 1 else 0) + (1 + aliveCount .T p.2)
    ∧ ∀ X : Str, aliveCount st (p.1 ++ X)
        = (if st = TdState.D then 1 else 0) + aliveCount .T X := by
  obtain ⟨a, b, c, alpha, beta, r3, hs, h1, h2, halpha, hbeta, htd3⟩ := tryMatch_decomp hm
  have htdany : ∀ l : Str, isTdOpen (a :: b :: c :: l) = true := by
    intro l
    have e : isTdOpen (a :: b :: c :: l)
        = isTdOpen (a :: b :: c :: (alpha ++ '>' :: (beta ++ r3))) := rfl
    rw [e, ← hs]
    exact htd
  constructor
  · rw [hs, aliveCount_td (htdany _),
        show (a :: b :: c :: (alpha ++ '>' :: (beta ++ r3))).drop 3
          = alpha ++ '>' :: (beta ++ r3) from rfl,
        aliveCount_T_alpha alpha.length alpha le_rfl ('>' :: (beta ++ r3)) halpha rfl,
        aliveCount_cons (isTdOpen_first_ne _ (by decide)),
        show tdStep .T '>' = .D from rfl,
        aliveCount_D_beta beta r3 hbeta,
        aliveCount_td htd3, h2]
    simp
  · intro X
    rw [h1,
        show (a :: b :: c ::
            (alpha ++ '>' :: (beta ++ ('<' :: '/' :: 't' :: 'd' :: '>' :: r3.take 3)))) ++ X
          = a :: b :: c ::
            (alpha ++ '>' :: (beta ++ ('<' :: '/' :: 't' :: 'd' :: '>' :: (r3.take 3 ++ X))))
          from by simp,
        aliveCount_td (htdany _),
        show (a :: b :: c ::
            (alpha ++ '>' :: (beta ++ ('<' :: '/' :: 't' :: 'd' :: '>' :: (r3.take 3 ++ X))))).drop 3
          = alpha ++ '>' :: (beta ++ ('<' :: '/' :: 't' :: 'd' :: '>' :: (r3.take 3 ++ X)))
          from rfl,
        aliveCount_T_alpha alpha.length alpha le_rfl
          ('>' :: (beta ++ ('<' :: '/' :: 't' :: 'd' :: '>' :: (r3.take 3 ++ X))))
          halpha rfl,
        aliveCount_cons (isTdOpen_first_ne _ (by decide)),
        show tdStep .T '>' = .D from rfl,
        aliveCount_D_beta beta _ hbeta,
        aliveCount_D_closeTd,
        aliveCount_td (isTdOpen_take_append htd3 X).1,
        (isTdOpen_take_append htd3 X).2]
    simp

lemma isTdOpen_shape {s : Str} (h : isTdOpen s = true) :
    ∃ a b c rest, s = a :: b :: c :: rest := by
  match s with
  | [] => simp [isTdOpen] at h
  | [a] => simp [isTdOpen] at h
  | [a, b] => simp [isTdOpen] at h
  | a :: b :: c :: rest => exact ⟨a, b, c, rest, rfl⟩

lemma onePass_head? (s : Str) : (onePass s).head? = s.head? := by
  by_cases htd : isTdOpen s = true
  · cases hm : tryMatch s with
    | some p =>
      rw [onePass_eq_match htd hm]
      obtain ⟨a, b, c, alpha, beta, r3, hs, h1, _, _, _, _⟩ := tryMatch_decomp hm
      rw [h1, hs]
      rfl
    | none =>
      rw [onePass_eq_skip htd hm]
      obtain ⟨a, b, c, rest, hs⟩ := isTdOpen_shape htd
      subst hs
      rfl
  · cases s with
    | nil => rw [onePass_nil]
    | cons c cs =>
      rw [onePass_eq_copy (by simpa using htd)]
      rfl

lemma onePass_take2 (s : Str) : (onePass s).take 2 = s.take 2 := by
  by_cases htd : isTdOpen s = true
  · cases hm : tryMatch s with
    | some p =>
      rw [onePass_eq_match htd hm]
      obtain ⟨a, b, c, alpha, beta, r3, hs, h1, _, _, _, _⟩ := tryMatch_decomp hm
      rw [h1, hs]
      rfl
    | none =>
      rw [onePass_eq_skip htd hm]
      obtain ⟨a, b, c, rest, hs⟩ := isTdOpen_shape htd
      subst hs
      rfl
  · cases s with
    | nil => rw [onePass_nil]
    | cons c cs =>
      rw [onePass_eq_copy (by simpa using htd)]
      have h1 : (onePass cs).take 1 = cs.take 1 := by
        have hh := onePass_head? cs
        cases hx : onePass cs with
        | nil =>
          rw [hx] at hh
          cases cs with
          | nil => rfl
          | cons u us => simp at hh
        | cons x xs =>
          rw [hx] at hh
          cases cs with
          | nil => simp at hh
          | cons u us =>
            have : x = u := by simpa using hh
            rw [this]
            rfl
      rw [show (c :: onePass cs).take 2 = c :: (onePass cs).take 1 from rfl,
          show (c :: cs).take 2 = c :: cs.take 1 from rfl, h1]

lemma isTdOpen_cons_onePass {c : Char} {cs : Str} (h : isTdOpen (c :: cs) = false) :
    isTdOpen (c :: onePass cs) = false := by
  have ht := onePass_take2 cs
  cases hx : onePass cs with
  | nil => rfl
  | cons x xs =>
    cases hxs : xs with
    | nil => rfl
    | cons y ys =>
      have h2 : cs.take 2 = [x, y] := by
        rw [← ht, hx, hxs]
        rfl
      obtain ⟨cs', hcs⟩ : ∃ cs', cs = x :: y :: cs' := by
        cases cs with
        | nil => simp at h2
        | cons u us =>
          cases us with
          | nil => simp at h2
          | cons v vs =>
            have h3 : x = u ∧ y = v := by
              have := h2.symm
              simpa using this
            exact ⟨vs, by rw [h3.1, h3.2]⟩
      subst hcs
      have e : isTdOpen (c :: x :: y :: ys) = isTdOpen (c :: x :: y :: cs') := rfl
      rw [e]
      exact h

lemma onePass_aliveCount :
    ∀ (n : Nat) (s : Str), s.length ≤ n → ∀ st : TdState,
      aliveCount st (onePass s) ≤ aliveCount st s ∧
      (onePass s ≠ s → aliveCount st (onePass s) < aliveCount st s) := by
  intro n
  induction n with
  | zero =>
    intro s hlen st
    have h0 : s = [] := List.length_eq_zero.mp (Nat.le_zero.mp hlen)
    subst h0
    rw [onePass_nil]
    exact ⟨le_refl _, fun h => absurd rfl h⟩
  | succ n ih =>
    intro s hlen st
    by_cases htd : isTdOpen s = true
    · cases hm : tryMatch s with
      | some p =>
        obtain ⟨hsEq, hOut⟩ := aliveCount_of_match st htd hm
        rw [onePass_eq_match htd hm, hOut (onePass p.2), hsEq]
        have hp2 : p.2.length ≤ n := by
          have := tryMatch_rest_lt hm
          omega
        have hih := (ih p.2 hp2 .T).1
        constructor
        · omega
        · intro _
          omega
      | none =>
        obtain ⟨a, b, c, rest, hs⟩ := isTdOpen_shape htd
        subst hs
        rw [onePass_eq_skip htd hm,
            show (a :: b :: c :: rest).take 3 = [a, b, c] from rfl,
            show (a :: b :: c :: rest).drop 3 = rest from rfl]
        have htd2 : isTdOpen ([a, b, c] ++ onePass rest) = true := by
          have e : isTdOpen ([a, b, c] ++ onePass rest)
              = isTdOpen (a :: b :: c :: rest) := rfl
          rw [e]
          exact htd
        rw [aliveCount_td htd2, aliveCount_td htd,
            show ([a, b, c] ++ onePass rest).drop 3 = onePass rest from rfl,
            show (a :: b :: c :: rest).drop 3 = rest from rfl]
        have hih := ih rest (by simp at hlen; omega) .T
        constructor
        · exact Nat.add_le_add_left hih.1 _
        · intro hne
          have hne2 : onePass rest ≠ rest := by
            intro h
            apply hne
            rw [h]
            rfl
          exact Nat.add_lt_add_left (hih.2 hne2) _
    · cases s with
      | nil =>
        rw [onePass_nil]
        exact ⟨le_refl _, fun h => absurd rfl h⟩
      | cons c cs =>
        have htd' : isTdOpen (c :: cs) = false := by simpa using htd
        rw [onePass_eq_copy htd',
            aliveCount_cons (isTdOpen_cons_onePass htd'), aliveCount_cons htd']
        have hih := ih cs (by simp at hlen; omega) (tdStep st c)
        exact ⟨hih.1, fun hne => hih.2 (fun h => hne (by rw [h]))⟩

lemma onePass_length_ge :
    ∀ (n : Nat) (s : Str), s.length ≤ n → s.length ≤ (onePass s).length := by
  intro n
  induction n with
  | zero =>
    intro s hlen
    have h0 : s = [] := List.length_eq_zero.mp (Nat.le_zero.mp hlen)
    subst h0
    rw [onePass_nil]
  | succ n ih =>
    intro s hlen
    by_cases htd : isTdOpen s = true
    · cases hm : tryMatch s with
      | some p =>
        rw [onePass_eq_match htd hm]
        have hl := tryMatch_lengths hm
        have hrest := tryMatch_rest_lt hm
        have hih := ih p.2 (by omega)
        simp only [List.length_append]
        omega
      | none =>
        obtain ⟨a, b, c, rest, hs⟩ := isTdOpen_shape htd
        subst hs
        rw [onePass_eq_skip htd hm,
            show (a :: b :: c :: rest).take 3 = [a, b, c] from rfl,
            show (a :: b :: c :: rest).drop 3 = rest from rfl]
        have hih := ih rest (by simp at hlen; omega)
        simp only [List.length_append, List.length_cons]
        simp at hih ⊢
        omega
    · cases s with
      | nil => rw [onePass_nil]
      | cons c cs =>
        rw [onePass_eq_copy (by simpa using htd)]
        have hih := ih cs (by simp at hlen; omega)
        simp only [List.length_cons]
        omega

lemma onePass_length_fix :
    ∀ (n : Nat) (s : Str), s.length ≤ n →
      (onePass s).length = s.length → onePass s = s := by
  intro n
  induction n with
  | zero =>
    intro s hlen _
    have h0 : s = [] := List.length_eq_zero.mp (Nat.le_zero.mp hlen)
    subst h0
    rw [onePass_nil]
  | succ n ih =>
    intro s hlen hfix
    by_cases htd : isTdOpen s = true
    · cases hm : tryMatch s with
      | some p =>
        exfalso
        have hl := tryMatch_lengths hm
        have hrest := tryMatch_rest_lt hm
        have hge := onePass_length_ge p.2.length p.2 le_rfl
        rw [onePass_eq_match htd hm] at hfix
        simp only [List.length_append] at hfix
        omega
      | none =>
        obtain ⟨a, b, c, rest, hs⟩ := isTdOpen_shape htd
        subst hs
        rw [onePass_eq_skip htd hm,
            show (a :: b :: c :: rest).take 3 = [a, b, c] from rfl,
            show (a :: b :: c :: rest).drop 3 = rest from rfl] at hfix ⊢
        have hfix2 : (onePass rest).length = rest.length := by
          simp only [List.length_append, List.length_cons] at hfix
          simp at hfix ⊢
          omega
        rw [ih rest (by simp at hlen; omega) hfix2]
        rfl
    · cases s with
      | nil => rw [onePass_nil]
      | cons c cs =>
        rw [onePass_eq_copy (by simpa using htd)] at hfix ⊢
        simp only [List.length_cons] at hfix
        rw [ih cs (by simp at hlen; omega) (by omega)]

/-- C9: the multi-pass unclosed-`<td>` rewriting loop of the HTML repair
filter — which repeats a global `/(<td[^>]*>)([^<]*?)(<td)/gi` replacement
until the string length stops changing — reaches a fixed point after
finitely many passes on every input string: the source loop, though it has
no iteration cap, terminates unconditionally. -/
theorem c9_td_repair_terminates (s : Str) :
    ∃ n : Nat,
      (onePass^[n + 1] s).length = (onePass^[n] s).length
      ∧ onePass^[n + 1] s = onePass^[n] s := by
  have key : ∀ (k : Nat) (s : Str), aliveCount .N s ≤ k →
      ∃ n, onePass^[n + 1] s = onePass^[n] s := by
    intro k
    induction k with
    | zero =>
      intro s hs
      by_cases h : onePass s = s
      · exact ⟨0, by simpa using h⟩
      · have hlt := (onePass_aliveCount s.length s le_rfl .N).2 h
        omega
    | succ k ih =>
      intro s hs
      by_cases h : onePass s = s
      · exact ⟨0, by simpa using h⟩
      · have hlt := (onePass_aliveCount s.length s le_rfl .N).2 h
        obtain ⟨n, hn⟩ := ih (onePass s) (by omega)
        refine ⟨n + 1, ?_⟩
        rw [show n + 1 + 1 = (n + 1) + 1 from rfl, Function.iterate_succ_apply,
            Function.iterate_succ_apply]
        exact hn
  obtain ⟨n, hn⟩ := key (aliveCount .N s) s le_rfl
  exact ⟨n, by rw [hn], hn⟩

/-- A concrete payroll-summary definition for exercising the salary
normalizer. -/
def sdefSalaryW : SourceDef :=
  { type := "salary_summary".toList, name := "급여총괄표".toList,
    signatures := ["성명".toList, "차인지급액".toList, "공제합계".toList],
    date := none, time := none, raw_description := none,
    amount := none, amount_alt := none,
    net_payment := some "차인지급액".toList,
    total_deduction := some "공제합계".toList,
    employee_name := some "성명".toList }

def headerRowSalaryW : List Str := ["성명".toList, "차인지급액".toList, "공제합계".toList]

def jdSalaryW : List (List JsVal) :=
  [[JsVal.str "성명".toList, JsVal.str "차인지급액".toList, JsVal.str "공제합계".toList],
   [JsVal.str "홍길동".toList, JsVal.str "1000".toList, JsVal.str "200".toList],
   [JsVal.str "합계".toList, JsVal.str "3000000".toList, JsVal.str "400000".toList]]

def rowSalaryW : List JsVal :=
  [JsVal.str "합계".toList, JsVal.str "3000000".toList, JsVal.str "400000".toList]

def infoSalaryW : IdSuccess :=
  { sdef := sdefSalaryW, headerRow := headerRowSalaryW, headerIndex := 0,
    sheetName := "Sheet1".toList, jsonData := jdSalaryW }

theorem c2_salary_summary_witness :
    (jdSalaryW.drop (infoSalaryW.headerIndex + 1)).find? rowContainsTotal = some rowSalaryW
    ∧ (normalizeSalarySummary (2025, 1, 15) "f.xlsx".toList jdSalaryW infoSalaryW).length
        = 3 :=
  ⟨by decide,
   ((c2_salary_summary (2025, 1, 15) "f.xlsx".toList jdSalaryW infoSalaryW).2
     rowSalaryW (by decide)).1⟩

def ruleW3 : Rule := { keywords := ["parking".toList], updates := none }

def entryW3 : Entry :=
  { date := "2025-01-10".toList, time := JsVal.str [], amount := 0,
    raw_description := "스타벅스".toList, item := [], category_detail := [],
    category_main := [], category_mso := [],
    raw_source := "KB국민카드".toList, raw_filename := "f.xlsx".toList }

theorem c3_classify_first_rule_witness :
    [ruleW3].find? (fun r => ruleMatches r entryW3) = none
    ∧ applyRulesEntry [ruleW3] entryW3 = entryW3 :=
  ⟨by decide, c3_classify_first_rule.2.1 [ruleW3] entryW3 (by decide)⟩

def entryW4 : Entry :=
  { date := "2025-01-10".toList, time := JsVal.str [], amount := 4500,
    raw_description := "스타벅스".toList, item := [], category_detail := [],
    category_main := [], category_mso := [],
    raw_source := "씨티카드 계좌".toList, raw_filename := "f.xlsx".toList }

theorem c4_channel_exclusive_witness :
    isSubstr "카드".toList entryW4.raw_source = true
    ∧ ((deriveChannels entryW4).col_card = some entryW4.amount
       ∧ (deriveChannels entryW4).col_card_detail = some entryW4.raw_source
       ∧ (deriveChannels entryW4).col_transfer = none
       ∧ (deriveChannels entryW4).col_account = none
       ∧ (deriveChannels entryW4).col_cash = none) :=
  ⟨by decide, (c4_channel_exclusive entryW4).1 (by decide)⟩

def hrW5 : List Str := ["가맹점명".toList, "이용금액(원)".toList]

theorem c5_getColIdx_resolution_witness :
    exactIdx hrW5 "이용금액(원)".toList = some 1
    ∧ resolveOne hrW5 "이용금액(원)".toList = some 1 :=
  ⟨by decide,
   c5_getColIdx_resolution.2.2.2 hrW5 "이용금액(원)".toList 1 (by decide)⟩

theorem c6_extractKRW_witness :
    extractKRW (JsVal.str "-.".toList) = 0 :=
  c6_extractKRW.2.2.2.2 "-.".toList (by decide)

theorem c7_formatDate_witness :
    formatDateStr (fun _ => none) "someday".toList = cleanDateStr "someday".toList :=
  c7_formatDate.2.2.2.2 (fun _ => none) "someday".toList (by decide) (by decide) rfl

def wbW8 : Workbook := ⟨[("Sheet1".toList, [[JsVal.str "x".toList]])]⟩

theorem c8_identify_failure_diagnostic_witness :
    identifySource wbW8 = IdResult.failure "x".toList
    ∧ ("x".toList = probeString wbW8
       ∧ processWorkbook (fun _ => none) [] (2025, 1, 15) "f.xlsx".toList wbW8
           = Except.error { filename := "f.xlsx".toList, msg := errMsg "x".toList }) :=
  ⟨by decide,
   (c8_identify_failure_diagnostic wbW8 (fun _ => none) [] (2025, 1, 15)
     "f.xlsx".toList).1 "x".toList (by decide)⟩

def sdefW10 : SourceDef :=
  { type := "kb_card".toList, name := "KB국민카드".toList,
    signatures := ["이용일".toList, "이용하신곳".toList, "이용금액".toList],
    date := some "이용일".toList, time := some "이용시간".toList,
    raw_description := some "이용하신곳".toList,
    amount := some "이용금액(원)".toList, amount_alt := some "이용금액".toList,
    net_payment := none, total_deduction := none, employee_name := none }

def hrW10 : List Str :=
  ["이용일".toList, "이용시간".toList, "이용하신곳".toList, "이용금액(원)".toList]

def jdW10 : List (List JsVal) :=
  [[JsVal.str "이용일".toList, JsVal.str "이용시간".toList,
    JsVal.str "이용하신곳".toList, JsVal.str "이용금액(원)".toList],
   [JsVal.str "2025-01-10".toList, JsVal.str "13:00".toList,
    JsVal.str "스타벅스".toList, JsVal.num 4500]]

def infoW10 : IdSuccess :=
  { sdef := sdefW10, headerRow := hrW10, headerIndex := 0,
    sheetName := "Sheet1".toList, jsonData := jdW10 }

theorem c10_normalizeData_equiv_witness :
    normalizeDataV0 (fun _ => none) "f.xlsx".toList jdW10 infoW10
      = normalizeData (fun _ => none) "f.xlsx".toList jdW10 infoW10 :=
  c10_normalizeData_equiv (fun _ => none) "f.xlsx".toList jdW10 infoW10 (by decide)
